import Mathlib

/-!
Verification of the writer pipeline in `dataiter/write.pyx`.

The source file is embedded shallowly:
* chunks are modelled by an inductive `Chunk` with a typed-array variant
  (numpy `ndarray`) and a generic variant (bytes / objects);
* lazily-pulled data iterables are modelled as lists of pull steps, where a
  step either yields a chunk or raises an upstream error
  (`PullStep := Except Unit Chunk`);
* the filesystem is an association list from paths to the list of chunks
  written to each file, and every externally visible effect of a write call
  (streams opened, write calls issued, close/flush calls) is recorded in an
  explicit event trace;
* the collaborators that live outside this file
  (`dataiter.compression` and `dataiter.iterate`) are modelled from the
  spec and passed in as explicit parameters where their behaviour matters.
-/

namespace Dataiter

/-- One unit of payload: either a typed numpy array (`np.ndarray`, a
contiguous homogeneously-typed block with a dtype) or a generic chunk
(bytes or any other object with a `write`-compatible representation). -/
inductive Chunk where
  | typedArray (dtype : String) (payload : List Nat)
  | generic (payload : List Nat)
deriving DecidableEq, Repr

/-- Coercing a chunk toward the unspecified / generic element
representation (the effect of `iter_as_dtype(_, None)` on one chunk):
a typed array loses its dtype, a generic chunk is unchanged. -/
def Chunk.toGeneric : Chunk → Chunk
  | .typedArray _ p => .generic p
  | .generic p => .generic p

/-- One pull from a lazily-evaluated data iterable: either it yields a
chunk, or the upstream producer raises. -/
abbrev PullStep := Except Unit Chunk

/-- Modelled from the spec: `dataiter.iterate.iter_data` (an external
collaborator, not under `src/`) normalizes an iterable into a canonical
chunk sequence with pass-through dtype; on a sequence that already
consists of chunks it is a lazy pass-through wrapper, yielding every
chunk unchanged and propagating upstream errors. -/
def iter_data (data_iter : List PullStep) : List PullStep := data_iter

/-- Modelled from the spec: `dataiter.iterate.iter_as_dtype` (an external
collaborator, not under `src/`) coerces each chunk of a sequence toward a
target representation; with the `None` sentinel it forces the generic
(no specific dtype) representation. -/
def iter_as_dtype (data_iter : List PullStep) (dtype : Option String) : List PullStep :=
  match dtype with
  | none => data_iter.map (Except.map Chunk.toGeneric)
  | some _ => data_iter

/-- Source `iter_hash(data_iter, hash)`: for each chunk pulled from `data_iter`,
first update the hash object, then yield the chunk.  The digest is
modelled by a state `δ` with an absorb operation `upd`; the generator's
output pairs each yielded element with the digest state at the moment it
is yielded. -/
def iter_hash {α δ : Type} (upd : δ → α → δ) (h : δ) : List α → List (α × δ)
  | [] => []
  | c :: rest => (c, upd h c) :: iter_hash upd (upd h c) rest

/-- Index of the last occurrence of `c` in `l`, or `-1` when absent
(Python `str.rfind`). -/
def rfind (l : List Char) (c : Char) : Int :=
  match l.reverse.findIdx? (· == c) with
  | some j => (l.length : Int) - 1 - j
  | none => -1

/-- Python `os.path.splitext` for POSIX paths: split off the extension at the
last dot that lies after the last path separator, unless every character
between the separator and that dot is itself a dot (leading dots of a
basename are not extension separators). -/
def splitext (s : String) : String × String :=
  let p := s.toList
  let sepIndex := rfind p '/'
  let dotIndex := rfind p '.'
  if sepIndex < dotIndex ∧
      ((p.take dotIndex.toNat).drop (sepIndex + 1).toNat).any (· != '.') = true then
    (⟨p.take dotIndex.toNat⟩, ⟨p.drop dotIndex.toNat⟩)
  else
    (s, "")

/-- Python `s.lstrip('.')`: remove every leading `'.'`. -/
def lstripDot (s : String) : String := ⟨s.toList.dropWhile (· == '.')⟩

/-- Source `decompressed_filepath(filepath)`: remove one extension when the
extension (without its dot) is a key of `FILE_CLASSES`.  `FILE_CLASSES`
lives in `dataiter.compression` (not under `src/`); modelled from the
spec as the fixed enumerable set of recognized format extension names,
passed in as the parameter `fileClasses`. -/
def decompressed_filepath (fileClasses : List String) (filepath : String) : String :=
  let ne := splitext filepath
  if fileClasses.contains (lstripDot ne.2) then ne.1 else filepath

/-- Errors a write call can raise: `KeyError` from the codec registry
lookup (`COMPRESSION_CLASSES[compression]`), `FileExistsError` from the
exclusive-create `xb` open, or an error raised by the upstream producer
while a chunk was being pulled. -/
inductive Err where
  | keyError (codec : String)
  | fileExists (path : String)
  | upstream
deriving DecidableEq, Repr

/-- An open writable stream: `open` with mode `xb` yields an
`io.BufferedWriter`; a codec's file class yields a compressing stream
that is not a `BufferedWriter`. -/
inductive FileObj where
  | bufferedWriter (path : String)
  | codecStream (codec : String) (path : String)
deriving DecidableEq, Repr

/-- The write call `write_data` issues on the stream: either the
bulk-binary fast path `data.tofile(fileobj)` (the array's native byte
representation goes straight to the file) or the generic
`fileobj.write(data)` with the chunk as-is. -/
inductive WriteCall where
  | tofile (data : Chunk)
  | write (data : Chunk)
deriving DecidableEq, Repr

/-- Source `write_data(fileobj, data)`: take the fast path exactly when the
chunk is an `np.ndarray` and the stream an `io.BufferedWriter`, else the
generic write. -/
def write_data (fileobj : FileObj) (data : Chunk) : WriteCall :=
  match data, fileobj with
  | .typedArray dt p, .bufferedWriter _ => .tofile (.typedArray dt p)
  | d, _ => .write d

/-- The filesystem: each existing path mapped to the chunks written to
it, in write order. -/
abbrev FS := List (String × List Chunk)

/-- The existing paths. -/
def FS.keys (fs : FS) : List String := fs.map Prod.fst

/-- Content of the file at `p`, when it exists. -/
def FS.lookup (fs : FS) (p : String) : Option (List Chunk) :=
  (fs.find? (fun e => e.1 == p)).map Prod.snd

/-- Append one written chunk to the file at `p`. -/
def FS.appendChunk (fs : FS) (p : String) (c : Chunk) : FS :=
  fs.map (fun e => if e.1 = p then (e.1, e.2 ++ [c]) else e)

/-- Externally visible effects of one write call, in order: a stream
was opened, a write call was issued on the opened stream, a write call
was issued on the caller's handle, the stream was closed, the stream
was flushed.  The writer source contains no close and no flush call, so
the model never emits the last two; recording them makes that absence a
statement about the trace. -/
inductive Event where
  | openedStream (path : String)
  | wrote (call : WriteCall)
  | handleWrote (data : Chunk)
  | closed
  | flushed
deriving DecidableEq, Repr

/-- The `filelike` argument of `file_writer`: a path string or an
already-open caller-owned handle (identified by an id; the writer only
ever calls `write` on it and returns it unchanged). -/
inductive Filelike where
  | path (s : String)
  | handle (id : Nat)
deriving DecidableEq, Repr

/-- Result of one `file_writer` / `memory_writer` call: the returned
value (or the raised error), the filesystem afterwards, how many pulls
were taken from the iterable driving the write loop, and the event
trace. -/
structure WriteOut where
  result : Except Err Filelike
  fs : FS
  pulled : Nat
  events : List Event
deriving Repr

/-- Source `open_writable_file(filepath, compression)`: append a dot and the
codec name when a codec is selected, look the codec up in
`COMPRESSION_CLASSES` (a `KeyError` surfaces here for an unrecognized
name), then open the resulting path in exclusive-create binary mode
`xb` (a `FileExistsError` surfaces when the path exists; otherwise the
file is created empty).  `COMPRESSION_CLASSES` lives in
`dataiter.compression` (not under `src/`); modelled from the spec: its
keys are the recognized codec names (parameter `ccKeys`) plus the
no-compression key, which maps to the plain binary opener. -/
def open_writable_file (ccKeys : List String) (fs : FS) (filepath : String)
    (compression : Option String) : Except Err (String × FileObj × FS) :=
  match compression with
  | some c =>
      let fp := filepath ++ "." ++ c
      if ccKeys.contains c then
        if (FS.keys fs).contains fp then .error (.fileExists fp)
        else .ok (fp, .codecStream c fp, (fp, []) :: fs)
      else .error (.keyError c)
  | none =>
      if (FS.keys fs).contains filepath then .error (.fileExists filepath)
      else .ok (filepath, .bufferedWriter filepath, (filepath, []) :: fs)

/-- State of the path-branch write loop after it ran: filesystem, pulls
taken from the iterable, events emitted, and whether an upstream error
aborted the loop. -/
structure LoopOut where
  fs : FS
  pulled : Nat
  events : List Event
  aborted : Bool
deriving Repr

/-- The path-branch loop `for data in it.iter_data(data_iter):
write_data(fileobj, data)`: each successful pull issues one `write_data`
call on the opened stream; a pull that raises aborts the loop with the
partial file left as is. -/
def writePathLoop (fileobj : FileObj) (p : String) : FS → List PullStep → LoopOut
  | fs, [] => ⟨fs, 0, [], false⟩
  | fs, .ok c :: rest =>
      let out := writePathLoop fileobj p (FS.appendChunk fs p c) rest
      ⟨out.fs, out.pulled + 1, .wrote (write_data fileobj c) :: out.events, out.aborted⟩
  | fs, .error _ :: _ => ⟨fs, 1, [], true⟩

/-- State of the handle-branch write loop: pulls taken from the iterable
and events emitted on the caller's handle. -/
structure HLoopOut where
  pulled : Nat
  events : List Event
  aborted : Bool
deriving Repr

/-- The handle-branch loop `for data in data_iter: filelike.write(data)`:
each successful pull issues one `write` call on the caller's handle; a
pull that raises aborts the loop. -/
def writeHandleLoop : List PullStep → HLoopOut
  | [] => ⟨0, [], false⟩
  | .ok c :: rest =>
      let out := writeHandleLoop rest
      ⟨out.pulled + 1, .handleWrote c :: out.events, out.aborted⟩
  | .error _ :: _ => ⟨1, [], true⟩

/-- Chunks yielded before the first upstream error. -/
def okChunks : List PullStep → List Chunk
  | [] => []
  | .ok c :: rest => c :: okChunks rest
  | .error _ :: _ => []

/-- Whether the iterable raises at some pull. -/
def hasErr : List PullStep → Bool
  | [] => false
  | .ok _ :: rest => hasErr rest
  | .error _ :: _ => true

/-- Modelled from the spec: `iter_compress(data_iter, compression)` (in
`dataiter.compression`, not under `src/`) is the codec's lazy
byte-compressing transform; an unrecognized codec name is a fatal
configuration error surfaced before any chunk is consumed, and an error
raised by the upstream producer propagates through the transform.  The
per-codec compression function itself is abstract (parameter `cf`). -/
def iter_compress (ccKeys : List String) (cf : String → List Chunk → List Chunk)
    (data_iter : List PullStep) (compression : String) : Except Err (List PullStep) :=
  if ccKeys.contains compression then
    .ok ((cf compression (okChunks data_iter)).map Except.ok ++
      if hasErr data_iter then [Except.error ()] else [])
  else .error (.keyError compression)

/-- Pulls taken from an iterable when it is consumed to exhaustion (or
up to and including the pull that raises). -/
def pulledOf : List PullStep → Nat
  | [] => 0
  | .ok _ :: rest => pulledOf rest + 1
  | .error _ :: _ => 1

/-- Python `list(...)`: materialize the iterable; a pull that raises propagates
the error. -/
def listOf : List PullStep → Except Err (List Chunk)
  | [] => .ok []
  | .ok c :: rest => (listOf rest).map (c :: ·)
  | .error _ :: _ => .error .upstream

/-- Source `memory_writer(data_iter)`: `list(it.iter_data(data_iter))`,
returning the materialized ordered collection together with the number
of pulls taken from the source. -/
def memory_writer (data_iter : List PullStep) : Except Err (List Chunk) × Nat :=
  (listOf (iter_data data_iter), pulledOf (iter_data data_iter))

/-- Source `file_writer(filelike, data_iter, compression)`.

Path branch: strip a recognized extension (`decompressed_filepath`),
resolve the final path and open the codec stream exclusively
(`open_writable_file`), then write each chunk of
`it.iter_data(data_iter)` through `write_data`; returns the final
filepath.

Handle branch: normalize with
`it.iter_as_dtype(it.iter_data(data_iter), None)` (forcing the generic
representation), wrap in `iter_compress` when a codec is selected, write
each resulting chunk with `filelike.write`, and return the original
handle. -/
def file_writer (ccKeys fileClasses : List String)
    (cf : String → List Chunk → List Chunk) (fs : FS) (filelike : Filelike)
    (data_iter : List PullStep) (compression : Option String) : WriteOut :=
  match filelike with
  | .path s =>
      let filepath := decompressed_filepath fileClasses s
      match open_writable_file ccKeys fs filepath compression with
      | .error e => ⟨.error e, fs, 0, []⟩
      | .ok (fp, fileobj, fs1) =>
          let out := writePathLoop fileobj fp fs1 (iter_data data_iter)
          ⟨if out.aborted then .error .upstream else .ok (.path fp),
            out.fs, out.pulled, .openedStream fp :: out.events⟩
  | .handle h =>
      let d1 := iter_as_dtype (iter_data data_iter) none
      match compression with
      | some c =>
          match iter_compress ccKeys cf d1 c with
          | .error e => ⟨.error e, fs, 0, []⟩
          | .ok d2 =>
              let out := writeHandleLoop d2
              ⟨if out.aborted then .error .upstream else .ok (.handle h),
                fs, out.pulled, out.events⟩
      | none =>
          let out := writeHandleLoop d1
          ⟨if out.aborted then .error .upstream else .ok (.handle h),
            fs, out.pulled, out.events⟩

/-- The final on-disk path a path-branch write resolves: the
extension-stripped request plus the codec extension when a codec is
selected. -/
def resolvedPath (fileClasses : List String) (s : String)
    (compression : Option String) : String :=
  match compression with
  | some c => decompressed_filepath fileClasses s ++ "." ++ c
  | none => decompressed_filepath fileClasses s

/-! ### Supporting lemmas -/

theorem okChunks_map_ok (l : List Chunk) : okChunks (l.map Except.ok) = l := by
  induction l with
  | nil => rfl
  | cons c rest ih => simp [okChunks, ih]

theorem hasErr_map_ok (l : List Chunk) : hasErr (l.map Except.ok) = false := by
  induction l with
  | nil => rfl
  | cons c rest ih => simp [hasErr, ih]

theorem writeHandleLoop_map_ok (l : List Chunk) :
    writeHandleLoop (l.map Except.ok) = ⟨l.length, l.map Event.handleWrote, false⟩ := by
  induction l with
  | nil => rfl
  | cons c rest ih => simp [writeHandleLoop, ih]

theorem map_exceptMap_map_ok (l : List Chunk) :
    (l.map (Except.ok : Chunk → PullStep)).map (Except.map Chunk.toGeneric) =
      (l.map Chunk.toGeneric).map (Except.ok : Chunk → PullStep) := by
  induction l with
  | nil => rfl
  | cons c rest ih => simp [Except.map, ih]

theorem keys_appendChunk (fs : FS) (p : String) (c : Chunk) :
    FS.keys (FS.appendChunk fs p c) = FS.keys fs := by
  induction fs with
  | nil => rfl
  | cons e rest ih =>
      simp only [FS.appendChunk, FS.keys, List.map_cons] at ih ⊢
      by_cases h : e.1 = p <;> simp [h, ih]

theorem keys_writePathLoop (fo : FileObj) (p : String) :
    ∀ (steps : List PullStep) (fs : FS),
      FS.keys (writePathLoop fo p fs steps).fs = FS.keys fs
  | [], fs => rfl
  | .ok c :: rest, fs => by
      simp only [writePathLoop]
      rw [keys_writePathLoop fo p rest (FS.appendChunk fs p c), keys_appendChunk]
  | .error _ :: _, fs => rfl

theorem lookup_cons (e : String × List Chunk) (rest : FS) (p : String) :
    FS.lookup (e :: rest) p = if e.1 = p then some e.2 else FS.lookup rest p := by
  by_cases h : e.1 = p
  · simp [FS.lookup, List.find?_cons, h]
  · simp [FS.lookup, List.find?_cons, beq_false_of_ne h, h]

theorem appendChunk_cons (e : String × List Chunk) (rest : FS) (p : String) (c : Chunk) :
    FS.appendChunk (e :: rest) p c =
      (if e.1 = p then (e.1, e.2 ++ [c]) else e) :: FS.appendChunk rest p c := rfl

theorem lookup_appendChunk (fs : FS) (p : String) (c : Chunk) :
    FS.lookup (FS.appendChunk fs p c) p = (FS.lookup fs p).map (· ++ [c]) := by
  induction fs with
  | nil => rfl
  | cons e rest ih =>
      rw [appendChunk_cons, lookup_cons, lookup_cons]
      by_cases h : e.1 = p
      · simp [h]
      · simp [h, ih]

theorem writePathLoop_map_ok_events (fo : FileObj) (p : String) :
    ∀ (l : List Chunk) (fs : FS),
      (writePathLoop fo p fs (l.map Except.ok)).events =
          l.map (fun c => Event.wrote (write_data fo c)) ∧
        (writePathLoop fo p fs (l.map Except.ok)).aborted = false ∧
        (writePathLoop fo p fs (l.map Except.ok)).pulled = l.length
  | [], fs => by simp [writePathLoop]
  | c :: rest, fs => by
      have ih := writePathLoop_map_ok_events fo p rest (FS.appendChunk fs p c)
      simp [writePathLoop, ih.1, ih.2.1, ih.2.2]

theorem writePathLoop_map_ok_lookup (fo : FileObj) (p : String) :
    ∀ (l : List Chunk) (fs : FS),
      FS.lookup (writePathLoop fo p fs (l.map Except.ok)).fs p =
        (FS.lookup fs p).map (· ++ l)
  | [], fs => by
      cases h : FS.lookup fs p <;> simp [writePathLoop, h]
  | c :: rest, fs => by
      have ih := writePathLoop_map_ok_lookup fo p rest (FS.appendChunk fs p c)
      simp only [List.map_cons, writePathLoop, ih, lookup_appendChunk]
      cases h : FS.lookup fs p <;> simp [h]

theorem listOf_map_ok (l : List Chunk) : listOf (l.map Except.ok) = .ok l := by
  induction l with
  | nil => rfl
  | cons c rest ih => simp [listOf, ih, Except.map]

theorem pulledOf_map_ok (l : List Chunk) : pulledOf (l.map Except.ok) = l.length := by
  induction l with
  | nil => rfl
  | cons c rest ih => simp [pulledOf, ih]

theorem iter_hash_fst {α δ : Type} (upd : δ → α → δ) (h : δ) (l : List α) :
    (iter_hash upd h l).map Prod.fst = l := by
  induction l generalizing h with
  | nil => rfl
  | cons c rest ih => simp [iter_hash, ih]

theorem iter_hash_last {α δ : Type} (upd : δ → α → δ) (h : δ) (l : List α) :
    ((iter_hash upd h l).map Prod.snd).getLastD h = List.foldl upd h l := by
  induction l generalizing h with
  | nil => rfl
  | cons c rest ih =>
      simp only [iter_hash, List.map_cons, List.getLastD_cons, List.foldl_cons]
      exact ih (upd h c)

theorem iter_hash_take {α δ : Type} (upd : δ → α → δ) (h : δ) (l : List α) (k : Nat) :
    (iter_hash upd h l).take k = iter_hash upd h (l.take k) := by
  induction l generalizing h k with
  | nil => simp [iter_hash]
  | cons c rest ih =>
      cases k with
      | zero => rfl
      | succ k => simp [iter_hash, ih]

theorem open_ok_inv (ccKeys : List String) (fs : FS) (fp0 : String)
    (compression : Option String) (fp : String) (fo : FileObj) (fs1 : FS)
    (h : open_writable_file ccKeys fs fp0 compression = .ok (fp, fo, fs1)) :
    fs1 = (fp, []) :: fs := by
  cases compression with
  | none =>
      simp only [open_writable_file] at h
      split at h
      · exact Except.noConfusion h
      · simp only [Except.ok.injEq, Prod.mk.injEq] at h
        rw [← h.2.2, h.1]
  | some c =>
      simp only [open_writable_file] at h
      split at h
      · split at h
        · exact Except.noConfusion h
        · simp only [Except.ok.injEq, Prod.mk.injEq] at h
          rw [← h.2.2, h.1]
      · exact Except.noConfusion h

theorem open_exists_err (ccKeys : List String) (fs : FS) (fp0 : String)
    (compression : Option String) (fp : String) (fo : FileObj) (fs1 : FS)
    (h : open_writable_file ccKeys fs fp0 compression = .ok (fp, fo, fs1))
    (fs2 : FS) (hmem : (FS.keys fs2).contains fp = true) :
    open_writable_file ccKeys fs2 fp0 compression = .error (.fileExists fp) := by
  cases compression with
  | none =>
      simp only [open_writable_file] at h
      split at h
      · exact Except.noConfusion h
      · simp only [Except.ok.injEq, Prod.mk.injEq] at h
        rw [← h.1] at hmem ⊢
        simp only [open_writable_file, hmem, if_true]
  | some c =>
      simp only [open_writable_file] at h
      split at h
      case isTrue hc =>
        split at h
        · exact Except.noConfusion h
        · simp only [Except.ok.injEq, Prod.mk.injEq] at h
          rw [← h.1] at hmem ⊢
          simp only [open_writable_file, hc, if_true, hmem]
      case isFalse => exact Except.noConfusion h

theorem open_ok_fp (ccKeys : List String) (fs : FS) (fp0 : String)
    (compression : Option String) (fp : String) (fo : FileObj) (fs1 : FS)
    (h : open_writable_file ccKeys fs fp0 compression = .ok (fp, fo, fs1)) :
    fp = (match compression with | some c => fp0 ++ "." ++ c | none => fp0) := by
  cases compression with
  | none =>
      simp only [open_writable_file] at h
      split at h
      · exact Except.noConfusion h
      · simp only [Except.ok.injEq, Prod.mk.injEq] at h
        exact h.1.symm
  | some c =>
      simp only [open_writable_file] at h
      split at h
      · split at h
        · exact Except.noConfusion h
        · simp only [Except.ok.injEq, Prod.mk.injEq] at h
          exact h.1.symm
      · exact Except.noConfusion h

theorem writePathLoop_events_wrote (fo : FileObj) (p : String) :
    ∀ (steps : List PullStep) (fs : FS) (e : Event),
      e ∈ (writePathLoop fo p fs steps).events → ∃ call, e = Event.wrote call
  | [], fs, e => by simp [writePathLoop]
  | .ok c :: rest, fs, e => by
      simp only [writePathLoop, List.mem_cons]
      rintro (rfl | hmem)
      · exact ⟨_, rfl⟩
      · exact writePathLoop_events_wrote fo p rest (FS.appendChunk fs p c) e hmem
  | .error _ :: _, fs, e => by simp [writePathLoop]

/-! ### The claims -/

/-- C4: for every chunk sequence and digest object, fully consuming
`tap_with_hash` (`iter_hash`) yields exactly the input chunks unchanged in
order and count; the final digest state equals absorbing the chunks in
order directly; and each chunk is absorbed exactly once immediately before
it is yielded, so a consumer that stops after `k` chunks leaves the digest
reflecting exactly the first `k` chunks. -/
theorem claim_C4_tap_with_hash_transparency {α δ : Type} (upd : δ → α → δ)
    (h : δ) (l : List α) :
    (iter_hash upd h l).map Prod.fst = l ∧
    ((iter_hash upd h l).map Prod.snd).getLastD h = List.foldl upd h l ∧
    (∀ k, (iter_hash upd h l).take k = iter_hash upd h (l.take k)) ∧
    (∀ k, (((iter_hash upd h l).take k).map Prod.snd).getLastD h =
      List.foldl upd h (l.take k)) :=
  ⟨iter_hash_fst upd h l, iter_hash_last upd h l, iter_hash_take upd h l,
    fun k => by rw [iter_hash_take]; exact iter_hash_last upd h (l.take k)⟩

/-- C6: `write_data` takes the bulk-binary fast path (`data.tofile`)
exactly when the chunk is a typed numeric array and the destination is a
raw buffered binary file stream; in every other combination it calls the
stream's generic `write` with the chunk as-is. -/
theorem claim_C6_chunk_sink_dispatch (fo : FileObj) (d : Chunk) :
    (write_data fo d = .tofile d ↔
      (∃ dt p, d = Chunk.typedArray dt p) ∧ ∃ q, fo = FileObj.bufferedWriter q) ∧
    (write_data fo d = .tofile d ∨ write_data fo d = .write d) := by
  cases d <;> cases fo <;> simp [write_data]

/-- C9: `memory_writer` exhausts the source exactly once (one pull per
chunk) and returns the ordered, indexable collection of the normalized
chunks in their original order, so a known chunk sequence written to
memory reads back identically. -/
theorem claim_C9_memory_writer_roundtrip (data : List Chunk) :
    memory_writer (data.map Except.ok) = (.ok data, data.length) := by
  simp [memory_writer, iter_data, listOf_map_ok, pulledOf_map_ok]

/-- C7: for every destination (path or handle) and every unrecognized codec
name, `file_writer` raises the configuration error (`KeyError`) before any
stream is opened and before any chunk is pulled from the source: the event
trace is empty, zero pulls were taken, and the filesystem is untouched. -/
theorem claim_C7_unrecognized_codec_fails_fast (ccKeys fileClasses : List String)
    (cf : String → List Chunk → List Chunk) (fs : FS) (filelike : Filelike)
    (data_iter : List PullStep) (c : String) (hc : c ∉ ccKeys) :
    (file_writer ccKeys fileClasses cf fs filelike data_iter (some c)).result
        = .error (.keyError c) ∧
    (file_writer ccKeys fileClasses cf fs filelike data_iter (some c)).pulled = 0 ∧
    (file_writer ccKeys fileClasses cf fs filelike data_iter (some c)).events = [] ∧
    (file_writer ccKeys fileClasses cf fs filelike data_iter (some c)).fs = fs := by
  cases filelike <;>
    simp [file_writer, open_writable_file, iter_compress, hc]

/-- C3: for every handle destination and chunk sequence, `file_writer`
normalizes the chunks forcing the generic representation, applies the
codec's lazy compression transform exactly when a codec is selected,
writes each resulting chunk via the handle's `write`, leaves the
filesystem untouched, and returns the original handle unchanged. -/
theorem claim_C3_handle_branch (ccKeys fileClasses : List String)
    (cf : String → List Chunk → List Chunk) (fs : FS) (h : Nat)
    (data : List Chunk) (c : String) (hc : c ∈ ccKeys) :
    (file_writer ccKeys fileClasses cf fs (.handle h) (data.map Except.ok)
        (some c)).result = .ok (.handle h) ∧
    (file_writer ccKeys fileClasses cf fs (.handle h) (data.map Except.ok)
        (some c)).events = (cf c (data.map Chunk.toGeneric)).map Event.handleWrote ∧
    (file_writer ccKeys fileClasses cf fs (.handle h) (data.map Except.ok)
        (some c)).fs = fs ∧
    (file_writer ccKeys fileClasses cf fs (.handle h) (data.map Except.ok)
        none).result = .ok (.handle h) ∧
    (file_writer ccKeys fileClasses cf fs (.handle h) (data.map Except.ok)
        none).events = (data.map Chunk.toGeneric).map Event.handleWrote ∧
    (file_writer ccKeys fileClasses cf fs (.handle h) (data.map Except.ok)
        none).fs = fs := by
  have hng := map_exceptMap_map_ok data
  have hok := okChunks_map_ok (data.map Chunk.toGeneric)
  have herr := hasErr_map_ok (data.map Chunk.toGeneric)
  have hloop1 := writeHandleLoop_map_ok (cf c (data.map Chunk.toGeneric))
  have hloop2 := writeHandleLoop_map_ok (data.map Chunk.toGeneric)
  have hcb : ccKeys.contains c = true := List.elem_eq_true_of_mem hc
  refine ⟨?_, ?_, ?_, ?_, ?_, ?_⟩ <;>
    simp only [file_writer, iter_data, iter_as_dtype, hng, iter_compress, hcb,
      if_true, hok, herr, Bool.false_eq_true, if_false, List.append_nil,
      hloop1, hloop2]

/-- C1: for every requested filepath whose single trailing extension names
a recognized base format, a path write strips that extension before
appending the codec extension: the returned filepath is the stripped name
plus `.` plus the codec, and that file now exists.  (In particular
`"out.csv"` with codec `"gz"` produces `"out.gz"` — see the witness.) -/
theorem claim_C1_strip_recognized_extension (ccKeys fileClasses : List String)
    (cf : String → List Chunk → List Chunk) (fs : FS) (f name ext c : String)
    (data : List Chunk)
    (hsplit : splitext f = (name, ext))
    (hbase : lstripDot ext ∈ fileClasses)
    (hc : c ∈ ccKeys)
    (hfresh : name ++ "." ++ c ∉ FS.keys fs) :
    (file_writer ccKeys fileClasses cf fs (.path f) (data.map Except.ok)
        (some c)).result = .ok (.path (name ++ "." ++ c)) ∧
    name ++ "." ++ c ∈ FS.keys (file_writer ccKeys fileClasses cf fs (.path f)
        (data.map Except.ok) (some c)).fs := by
  have hdec : decompressed_filepath fileClasses f = name := by
    simp [decompressed_filepath, hsplit, hbase]
  have hopen : open_writable_file ccKeys fs name (some c) =
      .ok (name ++ "." ++ c, .codecStream c (name ++ "." ++ c),
        (name ++ "." ++ c, []) :: fs) := by
    simp [open_writable_file, hc, hfresh]
  have hev := writePathLoop_map_ok_events (.codecStream c (name ++ "." ++ c))
    (name ++ "." ++ c) data ((name ++ "." ++ c, []) :: fs)
  have hkeys := keys_writePathLoop (.codecStream c (name ++ "." ++ c))
    (name ++ "." ++ c) (data.map Except.ok) ((name ++ "." ++ c, []) :: fs)
  simp only [file_writer, hdec, hopen, iter_data]
  constructor
  · simp [hev.2.1]
  · rw [hkeys]
    simp [FS.keys]

/-- C5: path naming is idempotent with respect to the codec extension:
writing to `"out"` with codec `"gz"` produces `"out.gz"`, and writing to
`"out.gz"` with codec `"gz"` also produces `"out.gz"` with no doubled
extension, given `"gz"` is in the stripped-extension set. -/
theorem claim_C5_codec_extension_idempotent (ccKeys fileClasses : List String)
    (cf : String → List Chunk → List Chunk) (fs : FS) (data : List Chunk)
    (hgzF : "gz" ∈ fileClasses)
    (hgzK : "gz" ∈ ccKeys)
    (hfresh : "out.gz" ∉ FS.keys fs) :
    (file_writer ccKeys fileClasses cf fs (.path "out") (data.map Except.ok)
        (some "gz")).result = .ok (.path "out.gz") ∧
    (file_writer ccKeys fileClasses cf fs (.path "out.gz") (data.map Except.ok)
        (some "gz")).result = .ok (.path "out.gz") := by
  have hcat : "out" ++ "." ++ "gz" = "out.gz" := by decide
  have hdec1 : decompressed_filepath fileClasses "out" = "out" := by
    have hs : splitext "out" = ("out", "") := by decide
    simp [decompressed_filepath, hs, lstripDot]
  have hdec2 : decompressed_filepath fileClasses "out.gz" = "out" := by
    have hs : splitext "out.gz" = ("out", ".gz") := by decide
    have hl : lstripDot ".gz" = "gz" := by decide
    simp [decompressed_filepath, hs, hl, hgzF]
  have hopen : open_writable_file ccKeys fs "out" (some "gz") =
      .ok ("out.gz", .codecStream "gz" "out.gz", ("out.gz", []) :: fs) := by
    simp [open_writable_file, hgzK, hcat, hfresh]
  have hev := writePathLoop_map_ok_events (.codecStream "gz" "out.gz") "out.gz"
    data (("out.gz", []) :: fs)
  constructor
  · simp only [file_writer, hdec1, hopen, iter_data]
    simp [hev.2.1]
  · simp only [file_writer, hdec2, hopen, iter_data]
    simp [hev.2.1]

/-- C8: for every finite source sequence of chunks, `file_writer` issues
exactly one write per post-normalization (path branch) or post-compression
(handle branch) chunk, in exactly the source order, with no gaps,
duplicates, reordering or batching: the event trace lists one write per
chunk in order, and the written file's content is exactly the chunk
sequence. -/
theorem claim_C8_one_write_per_chunk_in_order (ccKeys fileClasses : List String)
    (cf : String → List Chunk → List Chunk) (fs : FS) (f : String) (h : Nat)
    (data : List Chunk) (c : String)
    (hc : c ∈ ccKeys)
    (hfresh : decompressed_filepath fileClasses f ++ "." ++ c ∉ FS.keys fs) :
    (file_writer ccKeys fileClasses cf fs (.path f) (data.map Except.ok)
        (some c)).events
      = Event.openedStream (decompressed_filepath fileClasses f ++ "." ++ c) ::
          data.map (fun d => Event.wrote (write_data
            (.codecStream c (decompressed_filepath fileClasses f ++ "." ++ c)) d)) ∧
    FS.lookup (file_writer ccKeys fileClasses cf fs (.path f) (data.map Except.ok)
        (some c)).fs (decompressed_filepath fileClasses f ++ "." ++ c) = some data ∧
    (file_writer ccKeys fileClasses cf fs (.handle h) (data.map Except.ok)
        (some c)).events
      = (cf c (data.map Chunk.toGeneric)).map Event.handleWrote := by
  have hopen : open_writable_file ccKeys fs (decompressed_filepath fileClasses f)
      (some c) = .ok (decompressed_filepath fileClasses f ++ "." ++ c,
        .codecStream c (decompressed_filepath fileClasses f ++ "." ++ c),
        (decompressed_filepath fileClasses f ++ "." ++ c, []) :: fs) := by
    simp [open_writable_file, hc, hfresh]
  have hev := writePathLoop_map_ok_events
    (.codecStream c (decompressed_filepath fileClasses f ++ "." ++ c))
    (decompressed_filepath fileClasses f ++ "." ++ c) data
    ((decompressed_filepath fileClasses f ++ "." ++ c, []) :: fs)
  have hlook := writePathLoop_map_ok_lookup
    (.codecStream c (decompressed_filepath fileClasses f ++ "." ++ c))
    (decompressed_filepath fileClasses f ++ "." ++ c) data
    ((decompressed_filepath fileClasses f ++ "." ++ c, []) :: fs)
  refine ⟨?_, ?_, ?_⟩
  · simp only [file_writer, hopen, iter_data]
    simp [hev.1]
  · simp only [file_writer, hopen, iter_data]
    rw [hlook, lookup_cons]
    simp
  · have hng := map_exceptMap_map_ok data
    have hok := okChunks_map_ok (data.map Chunk.toGeneric)
    have herr := hasErr_map_ok (data.map Chunk.toGeneric)
    have hloop1 := writeHandleLoop_map_ok (cf c (data.map Chunk.toGeneric))
    have hcb : ccKeys.contains c = true := List.elem_eq_true_of_mem hc
    simp only [file_writer, iter_data, iter_as_dtype, hng, iter_compress, hcb,
      if_true, hok, herr, Bool.false_eq_true, if_false, List.append_nil, hloop1]

/-- C10: for every path destination, the stream opened by the writer is
never closed or flushed by the writer — no close or flush event ever
appears in the trace, whether the call succeeds or aborts mid-stream —
and on success only the final filepath is returned. -/
theorem claim_C10_stream_never_closed (ccKeys fileClasses : List String)
    (cf : String → List Chunk → List Chunk) (fs : FS) (f : String)
    (data_iter : List PullStep) (compression : Option String) (fl : Filelike) :
    Event.closed ∉ (file_writer ccKeys fileClasses cf fs (.path f) data_iter
        compression).events ∧
    Event.flushed ∉ (file_writer ccKeys fileClasses cf fs (.path f) data_iter
        compression).events ∧
    ((file_writer ccKeys fileClasses cf fs (.path f) data_iter compression).result
        = .ok fl → fl = .path (resolvedPath fileClasses f compression)) := by
  cases ho : open_writable_file ccKeys fs (decompressed_filepath fileClasses f)
      compression with
  | error e => simp [file_writer, ho]
  | ok t =>
      obtain ⟨fp, fo, fs1⟩ := t
      have hfp := open_ok_fp ccKeys fs _ compression fp fo fs1 ho
      simp only [file_writer, ho, iter_data]
      refine ⟨?_, ?_, ?_⟩
      · intro hmem
        simp only [List.mem_cons] at hmem
        rcases hmem with h1 | h2
        · exact Event.noConfusion h1
        · obtain ⟨call, hcall⟩ := writePathLoop_events_wrote fo fp data_iter fs1 _ h2
          exact Event.noConfusion hcall
      · intro hmem
        simp only [List.mem_cons] at hmem
        rcases hmem with h1 | h2
        · exact Event.noConfusion h1
        · obtain ⟨call, hcall⟩ := writePathLoop_events_wrote fo fp data_iter fs1 _ h2
          exact Event.noConfusion hcall
      · intro hres
        by_cases hab : (writePathLoop fo fp fs1 data_iter).aborted = true
        · rw [if_pos hab] at hres
          exact Except.noConfusion hres
        · rw [if_neg hab] at hres
          simp only [Except.ok.injEq] at hres
          rw [← hres, hfp]
          cases compression <;> rfl

/-- C2: the target file is opened in exclusive-create binary write mode:
when a path write succeeds and returns final path `P`, a second
`file_writer` call to the same requested path with the same codec raises
`FileExistsError P` and leaves the filesystem — including the data
written by the first call — unmodified. -/
theorem claim_C2_exclusive_create (ccKeys fileClasses : List String)
    (cf : String → List Chunk → List Chunk) (fs : FS) (f P : String)
    (src src2 : List PullStep) (compression : Option String)
    (hok : (file_writer ccKeys fileClasses cf fs (.path f) src compression).result
        = .ok (.path P)) :
    (file_writer ccKeys fileClasses cf
        (file_writer ccKeys fileClasses cf fs (.path f) src compression).fs
        (.path f) src2 compression).result = .error (.fileExists P) ∧
    (file_writer ccKeys fileClasses cf
        (file_writer ccKeys fileClasses cf fs (.path f) src compression).fs
        (.path f) src2 compression).fs
      = (file_writer ccKeys fileClasses cf fs (.path f) src compression).fs := by
  cases ho : open_writable_file ccKeys fs (decompressed_filepath fileClasses f)
      compression with
  | error e =>
      simp only [file_writer, ho] at hok
      exact absurd hok (by simp)
  | ok t =>
      obtain ⟨fp, fo, fs1⟩ := t
      simp only [file_writer, ho, iter_data] at hok ⊢
      have hfpP : fp = P := by
        by_cases hab : (writePathLoop fo fp fs1 src).aborted = true
        · rw [if_pos hab] at hok
          exact absurd hok (by simp)
        · rw [if_neg hab] at hok
          simpa using hok
      subst hfpP
      have hfs1 := open_ok_inv ccKeys fs _ compression fp fo fs1 ho
      have hmem : (FS.keys ((writePathLoop fo fp fs1 src).fs)).contains fp = true := by
        rw [keys_writePathLoop fo fp src fs1, hfs1]
        simp [FS.keys]
      have hopen2 := open_exists_err ccKeys fs _ compression fp fo fs1 ho
        ((writePathLoop fo fp fs1 src).fs) hmem
      rw [hopen2]
      exact ⟨rfl, rfl⟩

/-- Witness for C1: writing to `"out.csv"` with codec `"gz"` (with `"csv"`
a recognized base format) produces `"out.gz"`. -/
theorem claim_C1_witness :
    (file_writer ["gz"] ["csv"] (fun _ l => l) [] (.path "out.csv")
        ([Chunk.generic [1]].map Except.ok) (some "gz")).result
      = .ok (.path ("out" ++ "." ++ "gz")) ∧
    "out" ++ "." ++ "gz" ∈ FS.keys (file_writer ["gz"] ["csv"] (fun _ l => l) []
        (.path "out.csv") ([Chunk.generic [1]].map Except.ok) (some "gz")).fs :=
  claim_C1_strip_recognized_extension ["gz"] ["csv"] (fun _ l => l) [] "out.csv"
    "out" ".csv" "gz" [Chunk.generic [1]] (by decide) (by decide) (by decide)
    (by decide)

/-- Witness for C2: a second write to `"out"` with codec `"gz"` raises
`FileExistsError "out.gz"` and leaves the filesystem unmodified. -/
theorem claim_C2_witness :
    (file_writer ["gz"] [] (fun _ l => l)
        (file_writer ["gz"] [] (fun _ l => l) [] (.path "out")
          ([Chunk.generic [1]].map Except.ok) (some "gz")).fs
        (.path "out") ([Chunk.generic [2]].map Except.ok) (some "gz")).result
      = .error (.fileExists "out.gz") ∧
    (file_writer ["gz"] [] (fun _ l => l)
        (file_writer ["gz"] [] (fun _ l => l) [] (.path "out")
          ([Chunk.generic [1]].map Except.ok) (some "gz")).fs
        (.path "out") ([Chunk.generic [2]].map Except.ok) (some "gz")).fs
      = (file_writer ["gz"] [] (fun _ l => l) [] (.path "out")
          ([Chunk.generic [1]].map Except.ok) (some "gz")).fs :=
  claim_C2_exclusive_create ["gz"] [] (fun _ l => l) [] "out" "out.gz"
    ([Chunk.generic [1]].map Except.ok) ([Chunk.generic [2]].map Except.ok)
    (some "gz") (by rfl)

/-- Witness for C3: a handle write of two chunks with codec `"gz"` (under
the identity compression function) writes the generic-coerced chunks and
returns the handle. -/
theorem claim_C3_witness :
    (file_writer ["gz"] [] (fun _ l => l) [] (.handle 7)
        ([Chunk.typedArray "f64" [1], Chunk.generic [2]].map Except.ok)
        (some "gz")).result = .ok (.handle 7) ∧
    (file_writer ["gz"] [] (fun _ l => l) [] (.handle 7)
        ([Chunk.typedArray "f64" [1], Chunk.generic [2]].map Except.ok)
        (some "gz")).events
      = ((fun _ l => l : String → List Chunk → List Chunk) "gz"
          ([Chunk.typedArray "f64" [1], Chunk.generic [2]].map Chunk.toGeneric)).map
            Event.handleWrote ∧
    (file_writer ["gz"] [] (fun _ l => l) [] (.handle 7)
        ([Chunk.typedArray "f64" [1], Chunk.generic [2]].map Except.ok)
        (some "gz")).fs = [] ∧
    (file_writer ["gz"] [] (fun _ l => l) [] (.handle 7)
        ([Chunk.typedArray "f64" [1], Chunk.generic [2]].map Except.ok)
        none).result = .ok (.handle 7) ∧
    (file_writer ["gz"] [] (fun _ l => l) [] (.handle 7)
        ([Chunk.typedArray "f64" [1], Chunk.generic [2]].map Except.ok)
        none).events
      = ([Chunk.typedArray "f64" [1], Chunk.generic [2]].map Chunk.toGeneric).map
          Event.handleWrote ∧
    (file_writer ["gz"] [] (fun _ l => l) [] (.handle 7)
        ([Chunk.typedArray "f64" [1], Chunk.generic [2]].map Except.ok)
        none).fs = [] :=
  claim_C3_handle_branch ["gz"] [] (fun _ l => l) [] 7
    [Chunk.typedArray "f64" [1], Chunk.generic [2]] "gz" (by decide)

/-- Witness for C5: with `"gz"` in both registries and `"out.gz"` fresh,
writing to `"out"` and to `"out.gz"` with codec `"gz"` both produce
`"out.gz"`. -/
theorem claim_C5_witness :
    (file_writer ["gz"] ["gz"] (fun _ l => l) [] (.path "out")
        ([Chunk.generic [1]].map Except.ok) (some "gz")).result
      = .ok (.path "out.gz") ∧
    (file_writer ["gz"] ["gz"] (fun _ l => l) [] (.path "out.gz")
        ([Chunk.generic [1]].map Except.ok) (some "gz")).result
      = .ok (.path "out.gz") :=
  claim_C5_codec_extension_idempotent ["gz"] ["gz"] (fun _ l => l) []
    [Chunk.generic [1]] (by decide) (by decide) (by decide)

/-- Witness for C7: codec `"zz"` is not registered, so both a path write
and this call pull nothing, open nothing, and fail with `KeyError`. -/
theorem claim_C7_witness :
    (file_writer ["gz"] ["csv"] (fun _ l => l) [] (.path "out")
        [Except.ok (Chunk.generic [1])] (some "zz")).result
      = .error (.keyError "zz") ∧
    (file_writer ["gz"] ["csv"] (fun _ l => l) [] (.path "out")
        [Except.ok (Chunk.generic [1])] (some "zz")).pulled = 0 ∧
    (file_writer ["gz"] ["csv"] (fun _ l => l) [] (.path "out")
        [Except.ok (Chunk.generic [1])] (some "zz")).events = [] ∧
    (file_writer ["gz"] ["csv"] (fun _ l => l) [] (.path "out")
        [Except.ok (Chunk.generic [1])] (some "zz")).fs = [] :=
  claim_C7_unrecognized_codec_fails_fast ["gz"] ["csv"] (fun _ l => l) []
    (.path "out") [Except.ok (Chunk.generic [1])] "zz" (by decide)

/-- Witness for C8: a two-chunk path write with codec `"gz"` issues exactly
one write event per chunk in order and the file content is the chunk list;
the handle write mirrors the compressed sequence. -/
theorem claim_C8_witness :
    (file_writer ["gz"] [] (fun _ l => l) [] (.path "out")
        ([Chunk.generic [1], Chunk.generic [2]].map Except.ok) (some "gz")).events
      = Event.openedStream (decompressed_filepath [] "out" ++ "." ++ "gz") ::
          [Chunk.generic [1], Chunk.generic [2]].map (fun d => Event.wrote
            (write_data (.codecStream "gz"
              (decompressed_filepath [] "out" ++ "." ++ "gz")) d)) ∧
    FS.lookup (file_writer ["gz"] [] (fun _ l => l) [] (.path "out")
        ([Chunk.generic [1], Chunk.generic [2]].map Except.ok) (some "gz")).fs
        (decompressed_filepath [] "out" ++ "." ++ "gz")
      = some [Chunk.generic [1], Chunk.generic [2]] ∧
    (file_writer ["gz"] [] (fun _ l => l) [] (.handle 7)
        ([Chunk.generic [1], Chunk.generic [2]].map Except.ok) (some "gz")).events
      = ((fun _ l => l : String → List Chunk → List Chunk) "gz"
          ([Chunk.generic [1], Chunk.generic [2]].map Chunk.toGeneric)).map
            Event.handleWrote :=
  claim_C8_one_write_per_chunk_in_order ["gz"] [] (fun _ l => l) [] "out" 7
    [Chunk.generic [1], Chunk.generic [2]] "gz" (by decide) (by decide)

/-- Witness for C10: a path write that aborts on an upstream error after
one chunk still emits no close and no flush event. -/
theorem claim_C10_witness :
    Event.closed ∉ (file_writer ["gz"] [] (fun _ l => l) [] (.path "out")
        [Except.ok (Chunk.generic [1]), Except.error ()] (some "gz")).events ∧
    Event.flushed ∉ (file_writer ["gz"] [] (fun _ l => l) [] (.path "out")
        [Except.ok (Chunk.generic [1]), Except.error ()] (some "gz")).events ∧
    ((file_writer ["gz"] [] (fun _ l => l) [] (.path "out")
        [Except.ok (Chunk.generic [1]), Except.error ()] (some "gz")).result
      = .ok (.path "out.gz") →
        (Filelike.path "out.gz") = .path (resolvedPath [] "out" (some "gz"))) :=
  claim_C10_stream_never_closed ["gz"] [] (fun _ l => l) [] "out"
    [Except.ok (Chunk.generic [1]), Except.error ()] (some "gz")
    (.path "out.gz")

end Dataiter
